import Mathlib

/-!
Verification of the brewfile reconciliation engine.

Shallow embedding of the Python sources `src/brewfile/models.py`,
`src/brewfile/brew.py` and `src/brewfile/manager.py`:

* Python `dict`s (which preserve insertion order and have unique keys) are
  modelled as association lists `List (String × _)` with `List.lookup`;
* Python `set`s, which are only used for membership tests, are modelled as
  the lists of their would-be elements with `∈` membership;
* `list.remove(x)` removes the first occurrence, modelled by `List.erase`;
* in-place mutation of `PackageInfo.installed` is modelled by returning the
  updated list; process exit via `die(...)` and raised exceptions are
  modelled with `Except`.
-/

/-- `models.PackageType`: the closed enumeration of supported package types,
in definition order TAP, BREW, CASK, MAS (Python iterates the enum in this
order). -/
inductive PackageType where
  | TAP
  | BREW
  | CASK
  | MAS
deriving DecidableEq, Repr

/-- Iteration order of `for pkg_type in PackageType` in Python. -/
def PackageType.all : List PackageType := [.TAP, .BREW, .CASK, .MAS]

instance : Fintype PackageType :=
  ⟨⟨{.TAP, .BREW, .CASK, .MAS}, by decide⟩, by intro x; cases x <;> decide⟩

/-- `models.InstallationStatus`. -/
inductive InstallationStatus where
  | UNKNOWN
  | INSTALLED
  | NOT_INSTALLED
deriving DecidableEq, Repr

/-- `models.PackageInfo`: name, owning group (`none` for system packages),
package type and installation status. -/
structure PackageInfo where
  name : String
  group : Option String
  package_type : PackageType
  installed : InstallationStatus := .UNKNOWN
deriving DecidableEq, Repr

/-- `models.PackageGroup`: the four per-type package-name lists. -/
structure PackageGroup where
  taps : List String := []
  brews : List String := []
  casks : List String := []
  mas : List String := []
deriving DecidableEq, Repr

namespace PackageGroup

/-- `PackageGroup.get_packages_of_type` (the model does not need the
defensive `.copy()`: values are immutable here). -/
def get_packages_of_type (g : PackageGroup) (t : PackageType) : List String :=
  match t with
  | .TAP => g.taps
  | .BREW => g.brews
  | .CASK => g.casks
  | .MAS => g.mas

/-- `PackageGroup.add_package`: append the name to the per-type list unless
it is already present. -/
def add_package (g : PackageGroup) (t : PackageType) (name : String) : PackageGroup :=
  match t with
  | .TAP => if name ∈ g.taps then g else { g with taps := g.taps ++ [name] }
  | .BREW => if name ∈ g.brews then g else { g with brews := g.brews ++ [name] }
  | .CASK => if name ∈ g.casks then g else { g with casks := g.casks ++ [name] }
  | .MAS => if name ∈ g.mas then g else { g with mas := g.mas ++ [name] }

/-- `PackageGroup.remove_package`: Python `list.remove` removes the first
occurrence; returns `true` iff the name was present in the per-type list. -/
def remove_package (g : PackageGroup) (t : PackageType) (name : String) : PackageGroup × Bool :=
  match t with
  | .TAP => if name ∈ g.taps then ({ g with taps := g.taps.erase name }, true) else (g, false)
  | .BREW => if name ∈ g.brews then ({ g with brews := g.brews.erase name }, true) else (g, false)
  | .CASK => if name ∈ g.casks then ({ g with casks := g.casks.erase name }, true) else (g, false)
  | .MAS => if name ∈ g.mas then ({ g with mas := g.mas.erase name }, true) else (g, false)

end PackageGroup

/-- `models.BrewfileConfig`: version tag, ordered group mapping and ordered
machine mapping (Python `dict`s as association lists). -/
structure BrewfileConfig where
  version : String := "1.0"
  packages : List (String × PackageGroup) := []
  machines : List (String × List String) := []
deriving DecidableEq, Repr

namespace BrewfileConfig

/-- `BrewfileConfig.get_machine_packages`: `[]` when the hostname is absent;
otherwise flatten the assigned groups in list order, skipping group names
missing from `packages`, with types in enumeration order and names in
per-type insertion order. -/
def get_machine_packages (c : BrewfileConfig) (machine_name : String) : List PackageInfo :=
  match c.machines.lookup machine_name with
  | none => []
  | some group_names =>
      group_names.flatMap fun group_name =>
        match c.packages.lookup group_name with
        | none => []
        | some group =>
            PackageType.all.flatMap fun pkg_type =>
              (group.get_packages_of_type pkg_type).map fun pkg_name =>
                { name := pkg_name, group := some group_name, package_type := pkg_type }

/-- `BrewfileConfig.get_package_info`: scan groups in insertion order and,
within a group, types in enumeration order; return the first match. -/
def get_package_info (c : BrewfileConfig) (package_name : String) : Option PackageInfo :=
  c.packages.findSome? fun entry =>
    (PackageType.all.find? fun pkg_type =>
        decide (package_name ∈ entry.2.get_packages_of_type pkg_type)).map
      fun pkg_type => { name := package_name, group := some entry.1, package_type := pkg_type }

/-- One group's pass of `BrewfileConfig.remove_package`: try every type in
enumeration order, threading the `removed_type` accumulator (the last
successful removal wins). -/
def removeAllTypes (name : String) (g : PackageGroup) (acc : Option PackageType) :
    PackageGroup × Option PackageType :=
  PackageType.all.foldl
    (fun p t =>
      let r := p.1.remove_package t name
      (r.1, if r.2 then some t else p.2))
    (g, acc)

/-- The group-list traversal of `BrewfileConfig.remove_package`. -/
def removeFromGroups (name : String) (acc : Option PackageType) :
    List (String × PackageGroup) → List (String × PackageGroup) × Option PackageType
  | [] => ([], acc)
  | entry :: rest =>
      let r := removeAllTypes name entry.2 acc
      let tail := removeFromGroups name r.2 rest
      ((entry.1, r.1) :: tail.1, tail.2)

/-- `BrewfileConfig.remove_package`: remove the name from every group/type,
returning the updated configuration and the last type removed (the
config-file auto-save is an I/O effect outside the model). -/
def remove_package (c : BrewfileConfig) (package_name : String) :
    BrewfileConfig × Option PackageType :=
  let r := removeFromGroups package_name none c.packages
  ({ c with packages := r.1 }, r.2)

end BrewfileConfig

/-- Does the character list start with the MAS separator `"::"`? -/
def startsStoreSep (l : List Char) : Prop :=
  l.head? = some ':' ∧ l.tail.head? = some ':'

instance (l : List Char) : Decidable (startsStoreSep l) := by
  unfold startsStoreSep; infer_instance

/-- `"::" in name` (Python substring test, specialised to the MAS
separator): some suffix starts with `"::"`. -/
def hasStoreSep : List Char → Bool
  | [] => false
  | c :: rest => decide (startsStoreSep (c :: rest)) || hasStoreSep rest

/-- The characters before the first `"::"`, i.e. `name.split("::")[0]`. -/
def beforeStoreSep : List Char → List Char
  | [] => []
  | c :: rest => if startsStoreSep (c :: rest) then [] else c :: beforeStoreSep rest

/-- `name.split("::")[0]` on strings: the MAS display name of a configured
`"<displayName>::<storeID>"` entry (the whole name when no `"::"` occurs). -/
def masDisplayName (s : String) : String :=
  ⟨beforeStoreSep s.data⟩

/-- `"::" in name` on strings. -/
def hasStoreID (s : String) : Bool :=
  hasStoreSep s.data

/-- The `(pkg.name, pkg.package_type)` key used by the identity sets in
`brew.compare_packages` and `PackageCache.update_package_status`. -/
def pkgKey (p : PackageInfo) : String × PackageType :=
  (p.name, p.package_type)

/-- `brew.compare_packages`: the reconciliation diff. Mirrors the source:
raw identity sets from both lists, a display-name set from configured MAS
entries carrying `"::"`, a raw-name set from installed MAS entries; then
`missing` and `extra` are selected in input order. -/
def compare_packages (configured installed : List PackageInfo) :
    List PackageInfo × List PackageInfo :=
  let installed_keys := installed.map pkgKey
  let configured_keys := configured.map pkgKey
  let configured_mas_names :=
    (configured.filter fun p => p.package_type = .MAS ∧ hasStoreID p.name).map
      fun p => (masDisplayName p.name, PackageType.MAS)
  let installed_mas_names :=
    (installed.filter fun p => p.package_type = .MAS).map pkgKey
  let missing := configured.filter fun p =>
    if p.package_type = .MAS ∧ hasStoreID p.name then
      (masDisplayName p.name, PackageType.MAS) ∉ installed_mas_names
    else
      pkgKey p ∉ installed_keys
  let extra := installed.filter fun p =>
    if p.package_type = .MAS then
      pkgKey p ∉ configured_keys ∧ pkgKey p ∉ configured_mas_names
    else
      pkgKey p ∉ configured_keys
  (missing, extra)

/-- `PackageCache.update_package_status`, with the cached installed list
passed explicitly and the in-place status mutation modelled by returning
the updated list. -/
def update_package_status (installed packages : List PackageInfo) : List PackageInfo :=
  let installed_keys := installed.map pkgKey
  packages.map fun pkg =>
    let is_installed :=
      if pkg.package_type = .MAS ∧ hasStoreID pkg.name then
        installed.any fun installed_pkg =>
          (masDisplayName pkg.name, PackageType.MAS) = pkgKey installed_pkg
      else
        pkgKey pkg ∈ installed_keys
    { pkg with installed := if is_installed then .INSTALLED else .NOT_INSTALLED }

/-- The identity a configured package is matched under, following the spec:
for a StoreApp the display-name component (the part before `"::"`, the whole
name when no suffix is present), otherwise the raw `(name, type)` pair. An
installed StoreApp entry carries only its display name, so its identity is
its raw key. -/
def configuredIdentity (p : PackageInfo) : String × PackageType :=
  if p.package_type = .MAS then (masDisplayName p.name, .MAS) else pkgKey p

/-- The diff as the spec's words describe it (for comparison with
`compare_packages`): `missing` = configured packages whose identity
(StoreApp: display name) is absent from the installed identity-set, in
input order; `extra` = installed packages whose identity is absent from the
configured identity-set and from the configured-StoreApp-display-name-set,
in input order. -/
def comparePackagesSpec (configured installed : List PackageInfo) :
    List PackageInfo × List PackageInfo :=
  let installedIdentities := installed.map pkgKey
  let configuredIdentities := configured.map pkgKey
  let configuredMasDisplayNames :=
    (configured.filter fun p => p.package_type = .MAS).map
      fun p => (masDisplayName p.name, PackageType.MAS)
  ( configured.filter fun p => configuredIdentity p ∉ installedIdentities,
    installed.filter fun p =>
      pkgKey p ∉ configuredIdentities ∧ pkgKey p ∉ configuredMasDisplayNames )

/-- If a name contains no `"::"`, its display name is the name itself. -/
theorem beforeStoreSep_of_not_hasStoreSep :
    ∀ l : List Char, hasStoreSep l = false → beforeStoreSep l = l := by
  intro l
  induction l with
  | nil => intro _; rfl
  | cons c rest ih =>
      intro h
      rw [hasStoreSep] at h
      simp only [Bool.or_eq_false_iff, decide_eq_false_iff_not] at h
      rw [beforeStoreSep, if_neg h.1, ih h.2]

/-- If a name contains no `"::"`, `masDisplayName` returns it unchanged. -/
theorem masDisplayName_of_not_hasStoreID (s : String) (h : hasStoreID s = false) :
    masDisplayName s = s := by
  unfold masDisplayName
  rw [beforeStoreSep_of_not_hasStoreSep s.data h]

/-- `manager.BrewfileManager._ensure_configured` followed by the
`machine_packages` property: `die` when the hostname is not configured
(modelled as `Except.error`), otherwise the configured packages with
statuses updated against the installed snapshot, and the diff. The loaded
configuration and the cached installed list are passed explicitly. -/
def machine_packages (config : BrewfileConfig) (hostname : String)
    (installed : List PackageInfo) :
    Except String (List PackageInfo × List PackageInfo × List PackageInfo) :=
  match config.machines.lookup hostname with
  | none => .error ("Machine " ++ hostname ++ " is not configured. Run brewfile init first.")
  | some _ =>
      let configured_packages :=
        update_package_status installed (config.get_machine_packages hostname)
      let diff := compare_packages configured_packages installed
      .ok (configured_packages, diff.1, diff.2)

/-- The adoption step of `manager.BrewfileManager.cmd_sync_adopt` (the part
after confirmation and a successful install of missing packages): append
each extra package into the first group assigned to the hostname, falling
back to a group named `"adopted"` when the assigned group list is empty;
the `machines` mapping is not touched. Mirrors the source's
`groups[0] if groups else "adopted"`, group creation, and the adoption
loop. -/
def adoptExtras (config : BrewfileConfig) (hostname : String)
    (extra : List PackageInfo) : BrewfileConfig :=
  if extra.isEmpty then config
  else
    let groups := (config.machines.lookup hostname).getD []
    let target_group := groups.headD "adopted"
    let config1 :=
      if (config.packages.lookup target_group).isSome then config
      else { config with packages := config.packages ++ [(target_group, {})] }
    let packages2 := extra.foldl
      (fun pkgs pkg =>
        pkgs.map fun entry =>
          if entry.1 = target_group then (entry.1, entry.2.add_package pkg.package_type pkg.name)
          else entry)
      config1.packages
    { config1 with packages := packages2 }

/-- Outcome trace of `manager.BrewfileManager.cmd_remove`, recording which
messages were produced and whether a backend uninstall call was made. -/
structure RemoveResult where
  config : BrewfileConfig
  warned_not_found : Bool
  warned_mas_manual : Bool
  backend_attempted : Bool
  warned_backend_failed : Bool
  removed_from_config : Option PackageType
deriving DecidableEq, Repr

/-- `manager.BrewfileManager.cmd_remove` after `_ensure_configured`, with
the success of the backend uninstall call passed in as `backendOk` (a
`subprocess.run(..., check=True)` failure raises `CalledProcessError`,
caught at the end of the function, leaving the configuration untouched).
For a MAS package the source only warns — no backend call is made and no
exception can be raised — and then falls through to
`config.remove_package`. -/
def cmd_remove (config : BrewfileConfig) (package_name : String) (backendOk : Bool) :
    RemoveResult :=
  match config.get_package_info package_name with
  | none =>
      { config := config, warned_not_found := true, warned_mas_manual := false,
        backend_attempted := false, warned_backend_failed := false,
        removed_from_config := none }
  | some package_info =>
      if package_info.package_type = .MAS then
        let r := config.remove_package package_name
        { config := r.1, warned_not_found := false, warned_mas_manual := true,
          backend_attempted := false, warned_backend_failed := false,
          removed_from_config := r.2 }
      else if backendOk then
        let r := config.remove_package package_name
        { config := r.1, warned_not_found := false, warned_mas_manual := false,
          backend_attempted := true, warned_backend_failed := false,
          removed_from_config := r.2 }
      else
        { config := config, warned_not_found := false, warned_mas_manual := false,
          backend_attempted := true, warned_backend_failed := true,
          removed_from_config := none }

/-- A JSON document, as produced by Python's `json.load`. -/
inductive Json where
  | null
  | bool (b : Bool)
  | num (n : Int)
  | str (s : String)
  | arr (elems : List Json)
  | obj (fields : List (String × Json))

/-- Python exceptions relevant to `BrewfileConfig.load`: the `ValueError`
raised for an invalid configuration file (the spec's `ConfigParseError`),
and an `AttributeError` escaping `from_dict` (calling `.get`/`.items` on a
non-dict), which `load` does not catch. -/
inductive PyError where
  | configParseError
  | attributeError
deriving DecidableEq, Repr

/-- `dict.get(key, default)` on a JSON object's fields. -/
def jsonGet (fields : List (String × Json)) (key : String) (default : Json) : Json :=
  (fields.lookup key).getD default

/-- The group constructed by `BrewfileConfig.from_dict` for one entry of
`data["packages"]`: the four `pkg_data.get(...)` values, stored exactly as
found (the Python dataclass performs no shape check on them). Raises
`AttributeError` when the entry's value is not a dict. -/
def rawGroupOfJson (pkg_data : Json) : Except PyError (Json × Json × Json × Json) :=
  match pkg_data with
  | .obj pf =>
      .ok (jsonGet pf "taps" (.arr []), jsonGet pf "brews" (.arr []),
           jsonGet pf "casks" (.arr []), jsonGet pf "mas" (.arr []))
  | _ => .error .attributeError

/-- The configuration value constructed by `BrewfileConfig.from_dict`,
before any shape validation (none is performed on leaf fields): the
`version` and `machines` values are stored as found. -/
structure RawConfig where
  version : Json := .str "1.0"
  packages : List (String × (Json × Json × Json × Json)) := []
  machines : Json := .obj []

/-- `BrewfileConfig.from_dict`: `data.get(...)` raises `AttributeError` on
a non-dict `data`; `data.get("packages", {}).items()` raises
`AttributeError` when the `packages` value is not a dict; each group entry
goes through `rawGroupOfJson`; `version` and `machines` are taken as-is
with defaults `"1.0"` and the empty object. -/
def from_dict (data : Json) : Except PyError RawConfig :=
  match data with
  | .obj fields =>
      match jsonGet fields "packages" (.obj []) with
      | .obj pkgFields => do
          let packages ← pkgFields.mapM fun entry => do
            let g ← rawGroupOfJson entry.2
            pure (entry.1, g)
          pure { version := jsonGet fields "version" (.str "1.0"),
                 packages := packages,
                 machines := jsonGet fields "machines" (.obj []) }
      | _ => .error .attributeError
  | _ => .error .attributeError

/-- The possible states of the configuration file for
`BrewfileConfig.load`: absent, present but not decodable as JSON, or
decoded to a JSON document. -/
inductive LoadInput where
  | missing
  | undecodable
  | decoded (j : Json)

/-- `BrewfileConfig.load`: default configuration when the file does not
exist; `json.JSONDecodeError` is caught and re-raised as the
`ValueError` "Invalid configuration file" (`configParseError`); `from_dict`
runs inside the same `try`, but its only failure mode, `AttributeError`,
is not among the caught exception classes and escapes unchanged. -/
def load : LoadInput → Except PyError RawConfig
  | .missing => .ok {}
  | .undecodable => .error .configParseError
  | .decoded j => from_dict j

/-- A MAS-typed key is in the raw installed identity set iff it is in the
set built from the MAS-filtered installed list. -/
theorem mem_masKeys_iff (installed : List PackageInfo) (n : String) :
    (n, PackageType.MAS) ∈ (installed.filter fun p => p.package_type = .MAS).map pkgKey ↔
      (n, PackageType.MAS) ∈ installed.map pkgKey := by
  simp only [List.mem_map, List.mem_filter, decide_eq_true_eq, pkgKey]
  constructor
  · rintro ⟨q, ⟨hq, _⟩, heq⟩
    exact ⟨q, hq, heq⟩
  · rintro ⟨q, hq, heq⟩
    have ht : q.package_type = PackageType.MAS := congrArg Prod.snd heq
    exact ⟨q, ⟨hq, ht⟩, heq⟩

/-- The `missing` predicates of `compare_packages` and
`comparePackagesSpec` agree on every package. -/
theorem missing_pred_eq (installed : List PackageInfo) (p : PackageInfo) :
    (if p.package_type = .MAS ∧ hasStoreID p.name then
        ((masDisplayName p.name, PackageType.MAS) ∉
          (installed.filter fun q => q.package_type = .MAS).map pkgKey : Prop)
      else pkgKey p ∉ installed.map pkgKey) ↔
      configuredIdentity p ∉ installed.map pkgKey := by
  by_cases hm : p.package_type = .MAS
  · by_cases hs : hasStoreID p.name = true
    · rw [if_pos ⟨hm, hs⟩]
      unfold configuredIdentity
      rw [if_pos hm, mem_masKeys_iff]
    · have hs' : hasStoreID p.name = false := by
        cases h : hasStoreID p.name
        · rfl
        · exact absurd h hs
      rw [if_neg (by simp [hs'])]
      unfold configuredIdentity
      rw [if_pos hm, masDisplayName_of_not_hasStoreID _ hs']
      unfold pkgKey
      rw [hm]
  · rw [if_neg (by simp [hm])]
    unfold configuredIdentity
    rw [if_neg hm]

/-- The `extra` predicates of `compare_packages` and `comparePackagesSpec`
agree on every package. -/
theorem extra_pred_eq (configured : List PackageInfo) (q : PackageInfo) :
    (if q.package_type = .MAS then
        (pkgKey q ∉ configured.map pkgKey ∧
          pkgKey q ∉
            ((configured.filter fun p => p.package_type = .MAS ∧ hasStoreID p.name).map
              fun p => (masDisplayName p.name, PackageType.MAS)) : Prop)
      else pkgKey q ∉ configured.map pkgKey) ↔
      (pkgKey q ∉ configured.map pkgKey ∧
        pkgKey q ∉
          ((configured.filter fun p => p.package_type = .MAS).map
            fun p => (masDisplayName p.name, PackageType.MAS))) := by
  by_cases hm : q.package_type = .MAS
  · rw [if_pos hm]
    constructor
    · rintro ⟨hck, hsep⟩
      refine ⟨hck, fun hall => ?_⟩
      simp only [List.mem_map, List.mem_filter, decide_eq_true_eq] at hall
      obtain ⟨p, ⟨hp, hpt⟩, heq⟩ := hall
      by_cases hid : hasStoreID p.name = true
      · exact hsep (by
          simp only [List.mem_map, List.mem_filter, decide_eq_true_eq]
          exact ⟨p, ⟨hp, by simp [hpt, hid]⟩, heq⟩)
      · have hid' : hasStoreID p.name = false := by
          cases h : hasStoreID p.name
          · rfl
          · exact absurd h hid
        rw [masDisplayName_of_not_hasStoreID _ hid'] at heq
        exact hck (by
          simp only [List.mem_map]
          exact ⟨p, hp, by rw [← heq]; unfold pkgKey; rw [hpt]⟩)
    · rintro ⟨hck, hall⟩
      refine ⟨hck, fun hsep => ?_⟩
      simp only [List.mem_map, List.mem_filter, decide_eq_true_eq] at hsep
      obtain ⟨p, ⟨hp, hcond⟩, heq⟩ := hsep
      exact hall (by
        simp only [List.mem_map, List.mem_filter, decide_eq_true_eq]
        exact ⟨p, ⟨hp, hcond.1⟩, heq⟩)
  · rw [if_neg hm]
    constructor
    · intro hck
      refine ⟨hck, fun hall => ?_⟩
      simp only [List.mem_map, List.mem_filter, decide_eq_true_eq] at hall
      obtain ⟨p, _, heq⟩ := hall
      exact hm (congrArg Prod.snd heq.symm)
    · exact fun h => h.1

/-- C1: `compare_packages` returns `(missing, extra)` exactly as the spec
describes: `missing` is the configured packages whose identity (StoreApp:
display name) is absent from the installed identity-set, in the input order
of `configured`; `extra` is the installed packages whose identity is absent
from the configured identity-set and from the
configured-StoreApp-display-name-set, in the input order of `installed`;
and no package is reported in both lists (a missing and an extra package
never agree, neither on raw identity nor on the configured package's
matching identity). The function is a pure Lean function of its two input
lists, hence deterministic and without mutation of its inputs. -/
theorem compare_packages_correct (configured installed : List PackageInfo) :
    compare_packages configured installed = comparePackagesSpec configured installed ∧
    (∀ p ∈ (compare_packages configured installed).1,
      ∀ q ∈ (compare_packages configured installed).2,
        pkgKey p ≠ pkgKey q ∧ configuredIdentity p ≠ pkgKey q) := by
  have hmain :
      compare_packages configured installed = comparePackagesSpec configured installed := by
    unfold compare_packages comparePackagesSpec
    simp only
    refine congrArg₂ Prod.mk ?_ ?_
    · refine List.filter_congr fun p _ => ?_
      have h := missing_pred_eq installed p
      by_cases hc : p.package_type = .MAS ∧ hasStoreID p.name
      · rw [if_pos hc] at h ⊢
        exact decide_eq_decide.mpr h
      · rw [if_neg hc] at h ⊢
        exact decide_eq_decide.mpr h
    · refine List.filter_congr fun q _ => ?_
      have h := extra_pred_eq configured q
      by_cases hc : q.package_type = .MAS
      · rw [if_pos hc] at h ⊢
        exact decide_eq_decide.mpr h
      · rw [if_neg hc] at h ⊢
        exact decide_eq_decide.mpr h
  refine ⟨hmain, ?_⟩
  intro p hp q hq
  rw [hmain] at hp hq
  unfold comparePackagesSpec at hp hq
  simp only [List.mem_filter, decide_eq_true_eq] at hp hq
  obtain ⟨hpc, hpmiss⟩ := hp
  obtain ⟨hqi, hqck, _⟩ := hq
  constructor
  · intro hkey
    exact hqck (hkey ▸ List.mem_map_of_mem pkgKey hpc)
  · intro hid
    exact hpmiss (hid ▸ List.mem_map_of_mem pkgKey hqi)

/-- A configured formula, for concrete instances. -/
def gitPkg : PackageInfo :=
  { name := "git", group := some "core", package_type := .BREW }

/-- An installed formula not present in any configuration, for concrete
instances. -/
def htopPkg : PackageInfo :=
  { name := "htop", group := none, package_type := .BREW, installed := .INSTALLED }

/-- Witness for `compare_packages_correct` at `configured = [git]`,
`installed = [htop]`: the diff agrees with the spec description and the
missing and extra packages have distinct identities. -/
theorem compare_packages_correct_witness :
    compare_packages [gitPkg] [htopPkg] = comparePackagesSpec [gitPkg] [htopPkg] ∧
    pkgKey gitPkg ≠ pkgKey htopPkg := by
  have h := compare_packages_correct [gitPkg] [htopPkg]
  exact ⟨h.1, (h.2 gitPkg (by decide) htopPkg (by decide)).1⟩

/-- A configured StoreApp carrying no store-ID suffix. -/
def slackBareCfg : PackageInfo :=
  { name := "Slack", group := some "core", package_type := .MAS }

/-- An installed StoreApp whose recorded name carries a `"::<storeID>"`
suffix. -/
def slackSuffixedInst : PackageInfo :=
  { name := "Slack::803453959", group := none, package_type := .MAS,
    installed := .INSTALLED }

/-- A configured StoreApp with the composite `"<displayName>::<storeID>"`
name. -/
def slackSuffixedCfg : PackageInfo :=
  { name := "Slack::803453959", group := some "core", package_type := .MAS }

/-- An installed StoreApp recorded under its bare display name. -/
def slackBareInst : PackageInfo :=
  { name := "Slack", group := none, package_type := .MAS, installed := .INSTALLED }

/-- Counterexample to C2: the `"::<storeID>"` suffix is NOT ignored when it
is present on the installed side. With configured StoreApp `"Slack"` and
installed StoreApp `"Slack::803453959"`, the claimed display-name-only
matching would report the pair as neither missing nor extra and mark the
configured package installed; the code instead reports it missing AND
extra, and marks it not installed. -/
theorem c2_counterexample :
    compare_packages [slackBareCfg] [slackSuffixedInst] =
      ([slackBareCfg], [slackSuffixedInst]) ∧
    update_package_status [slackSuffixedInst] [slackBareCfg] =
      [{ slackBareCfg with installed := .NOT_INSTALLED }] := by
  constructor
  · decide
  · decide

/-- C2 as amended: for StoreApp packages the store-ID suffix is stripped
only on the configured side — a configured StoreApp `"<name>::<id>"` is
matched (in `compare_packages` and in `update_package_status`) iff some
installed StoreApp's raw name equals its display name — and in particular
configured `"Slack::803453959"` matches installed `"Slack"`: the diff
reports it as neither missing nor extra and `update_package_status` marks
it installed. -/
theorem c2_amended (configured installed : List PackageInfo) (p : PackageInfo)
    (hm : p.package_type = .MAS) (hs : hasStoreID p.name = true) :
    (p ∈ (compare_packages configured installed).1 ↔
      p ∈ configured ∧
        ¬ ∃ q ∈ installed, q.package_type = .MAS ∧ q.name = masDisplayName p.name) ∧
    update_package_status installed [p] =
      [{ p with installed :=
          if ∃ q ∈ installed, q.package_type = .MAS ∧ q.name = masDisplayName p.name then
            .INSTALLED
          else .NOT_INSTALLED }] ∧
    compare_packages [slackSuffixedCfg] [slackBareInst] = ([], []) ∧
    update_package_status [slackBareInst] [slackSuffixedCfg] =
      [{ slackSuffixedCfg with installed := .INSTALLED }] := by
  have hkey : ∀ (l : List PackageInfo),
      ((masDisplayName p.name, PackageType.MAS) ∈ l.map pkgKey) ↔
        ∃ q ∈ l, q.package_type = .MAS ∧ q.name = masDisplayName p.name := by
    intro l
    simp only [List.mem_map, pkgKey]
    constructor
    · rintro ⟨q, hq, heq⟩
      exact ⟨q, hq, congrArg Prod.snd heq, congrArg Prod.fst heq⟩
    · rintro ⟨q, hq, ht, hn⟩
      exact ⟨q, hq, by rw [ht, hn]⟩
  refine ⟨?_, ?_, by decide, by decide⟩
  · unfold compare_packages
    simp only [List.mem_filter]
    constructor
    · rintro ⟨hp, hpred⟩
      refine ⟨hp, fun hex => ?_⟩
      rw [if_pos ⟨hm, hs⟩] at hpred
      simp only [decide_eq_true_eq] at hpred
      exact hpred ((mem_masKeys_iff installed (masDisplayName p.name)).mpr
        ((hkey installed).mpr hex))
    · rintro ⟨hp, hnex⟩
      refine ⟨hp, ?_⟩
      rw [if_pos ⟨hm, hs⟩]
      simp only [decide_eq_true_eq]
      intro hmem
      exact hnex ((hkey installed).mp
        ((mem_masKeys_iff installed (masDisplayName p.name)).mp hmem))
  · by_cases hex : ∃ q ∈ installed, q.package_type = .MAS ∧ q.name = masDisplayName p.name
    · simp [update_package_status, hm, hs, hex]
      obtain ⟨q, hq, ht, hn⟩ := hex
      exact ⟨q, hq, by simp [pkgKey, ht, hn]⟩
    · simp [update_package_status, hm, hs, hex]
      intro x hx heq
      exact hex ⟨x, hx, (congrArg Prod.snd heq).symm, (congrArg Prod.fst heq).symm⟩

/-- `find?` returns the head of the filtered list. -/
theorem find?_eq_head?_filter {α : Type} (p : α → Bool) :
    ∀ l : List α, l.find? p = (l.filter p).head? := by
  intro l
  induction l with
  | nil => rfl
  | cons a rest ih =>
      by_cases h : p a = true
      · rw [List.find?_cons_of_pos _ h, List.filter_cons_of_pos h, List.head?_cons]
      · rw [List.find?_cons_of_neg _ h, List.filter_cons_of_neg (by simpa using h), ih]

/-- `findSome?` of per-element heads is the head of the flattened list. -/
theorem findSome?_head?_flatMap {α β : Type} (g : α → List β) :
    ∀ l : List α, (l.findSome? fun a => (g a).head?) = (l.flatMap g).head? := by
  intro l
  induction l with
  | nil => rfl
  | cons a rest ih =>
      rw [List.findSome?_cons, List.flatMap_cons]
      cases hg : g a with
      | nil => simpa using ih
      | cons b bs => simp

/-- C5 as amended: `get_package_info` scans groups in insertion order
first and, within each group, package types in enumeration order; it
returns the first match in that order (so a match in an earlier group wins
even when a later group holds the name under an earlier package type), or
`none` when the name appears in no group. -/
theorem get_package_info_first_match (c : BrewfileConfig) (package_name : String) :
    c.get_package_info package_name =
      (c.packages.flatMap fun entry =>
        (PackageType.all.filter fun pkg_type =>
            decide (package_name ∈ entry.2.get_packages_of_type pkg_type)).map
          fun pkg_type =>
            ({ name := package_name, group := some entry.1, package_type := pkg_type } :
              PackageInfo)).head? := by
  unfold BrewfileConfig.get_package_info
  rw [← findSome?_head?_flatMap]
  have hfun : ∀ entry : String × PackageGroup,
      ((PackageType.all.find? fun pkg_type =>
          decide (package_name ∈ entry.2.get_packages_of_type pkg_type)).map
        fun pkg_type =>
          ({ name := package_name, group := some entry.1, package_type := pkg_type } :
            PackageInfo)) =
      ((PackageType.all.filter fun pkg_type =>
          decide (package_name ∈ entry.2.get_packages_of_type pkg_type)).map
        fun pkg_type =>
          ({ name := package_name, group := some entry.1, package_type := pkg_type } :
            PackageInfo)).head? := by
    intro entry
    rw [find?_eq_head?_filter, List.head?_map]
  exact congrArg (fun f => List.findSome? f c.packages) (funext hfun)

/-- The configuration refuting C5's scan order: the name `x` appears as a
cask in the first group and as a tap (an earlier `PackageType`) in the
second group. -/
def c5Config : BrewfileConfig :=
  { packages := [("g1", { casks := ["x"] }), ("g2", { taps := ["x"] })] }

/-- Counterexample to C5: scanning is by group first, not by type first.
In `c5Config` the name `x` is a tap of group `g2` — and `TAP` precedes
`CASK` in the type enumeration — yet the lookup returns the `CASK` match
of the earlier group `g1`. -/
theorem c5_counterexample :
    c5Config.get_package_info "x" =
      some { name := "x", group := some "g1", package_type := .CASK } ∧
    ("g2", ({ taps := ["x"] } : PackageGroup)) ∈ c5Config.packages ∧
    "x" ∈ (({ taps := ["x"] } : PackageGroup)).get_packages_of_type .TAP := by
  refine ⟨by decide, by decide, by decide⟩

/-- The per-type lists after one group's removal pass: the name is erased
(first occurrence) from each per-type list that contained it. -/
theorem removeAllTypes_get (name : String) (g : PackageGroup) (acc : Option PackageType)
    (t : PackageType) :
    ((BrewfileConfig.removeAllTypes name g acc).1).get_packages_of_type t =
      if name ∈ g.get_packages_of_type t then (g.get_packages_of_type t).erase name
      else g.get_packages_of_type t := by
  by_cases h1 : name ∈ g.taps <;> by_cases h2 : name ∈ g.brews <;>
    by_cases h3 : name ∈ g.casks <;> by_cases h4 : name ∈ g.mas <;> cases t <;>
    simp [BrewfileConfig.removeAllTypes, PackageType.all, PackageGroup.remove_package,
      PackageGroup.get_packages_of_type, h1, h2, h3, h4]

/-- The `removed_type` accumulator after one group's removal pass: the
last type whose list contained the name, else the incoming accumulator. -/
theorem removeAllTypes_snd (name : String) (g : PackageGroup) (acc : Option PackageType) :
    (BrewfileConfig.removeAllTypes name g acc).2 =
      ((PackageType.all.filter fun t =>
          decide (name ∈ g.get_packages_of_type t)).getLast?).or acc := by
  by_cases h1 : name ∈ g.taps <;> by_cases h2 : name ∈ g.brews <;>
    by_cases h3 : name ∈ g.casks <;> by_cases h4 : name ∈ g.mas <;>
    simp [BrewfileConfig.removeAllTypes, PackageType.all, PackageGroup.remove_package,
      PackageGroup.get_packages_of_type, h1, h2, h3, h4]

/-- The accumulator after the whole group-list traversal: the last
`(group, type)` occurrence of the name in iteration order, else the
incoming accumulator. -/
theorem removeFromGroups_snd (name : String) :
    ∀ (gs : List (String × PackageGroup)) (acc : Option PackageType),
      (BrewfileConfig.removeFromGroups name acc gs).2 =
        ((gs.flatMap fun e =>
            PackageType.all.filter fun t =>
              decide (name ∈ e.2.get_packages_of_type t)).getLast?).or acc := by
  intro gs
  induction gs with
  | nil => intro acc; simp [BrewfileConfig.removeFromGroups]
  | cons e rest ih =>
      intro acc
      rw [BrewfileConfig.removeFromGroups]
      simp only [List.flatMap_cons, List.getLast?_append]
      rw [ih, removeAllTypes_snd, Option.or_assoc]

/-- After the whole group-list traversal, a name occurring at most once per
per-type list is gone from every group. -/
theorem removeFromGroups_not_mem (name : String) :
    ∀ (gs : List (String × PackageGroup)) (acc : Option PackageType),
      (∀ e ∈ gs, ∀ t : PackageType, (e.2.get_packages_of_type t).count name ≤ 1) →
      ∀ e ∈ (BrewfileConfig.removeFromGroups name acc gs).1, ∀ t : PackageType,
        name ∉ e.2.get_packages_of_type t := by
  intro gs
  induction gs with
  | nil => intro acc _ e he; cases he
  | cons e0 rest ih =>
      intro acc hdedup e he t
      rw [BrewfileConfig.removeFromGroups] at he
      simp only [List.mem_cons] at he
      rcases he with he | he
      · subst he
        rw [removeAllTypes_get]
        by_cases hmem : name ∈ e0.2.get_packages_of_type t
        · rw [if_pos hmem]
          intro hmem'
          have hcount := hdedup e0 (List.mem_cons_self e0 rest) t
          have := List.count_erase_self name (e0.2.get_packages_of_type t)
          have hpos : 0 < (e0.2.get_packages_of_type t).count name :=
            List.count_pos_iff.mpr hmem
          have hpos' : 0 < ((e0.2.get_packages_of_type t).erase name).count name :=
            List.count_pos_iff.mpr hmem'
          omega
        · rw [if_neg hmem]; exact hmem
      · exact ih _ (fun e' he' t' => hdedup e' (List.mem_cons_of_mem e0 he') t') e he t

/-- C8: `remove_package` removes the named package from every group and
every type in which it appears (all occurrences across all groups; the
per-type lists are dedup sets, expressed by the count hypothesis), and
returns the last type removed in iteration order — groups in insertion
order, types in enumeration order — or `none` when the name is found in no
group. -/
theorem remove_package_correct (c : BrewfileConfig) (package_name : String)
    (hdedup : ∀ e ∈ c.packages, ∀ t : PackageType,
      (e.2.get_packages_of_type t).count package_name ≤ 1) :
    (∀ e ∈ (c.remove_package package_name).1.packages, ∀ t : PackageType,
        package_name ∉ e.2.get_packages_of_type t) ∧
    (c.remove_package package_name).2 =
      (c.packages.flatMap fun e =>
        PackageType.all.filter fun t =>
          decide (package_name ∈ e.2.get_packages_of_type t)).getLast? := by
  constructor
  · intro e he t
    exact removeFromGroups_not_mem package_name c.packages none hdedup e he t
  · show (BrewfileConfig.removeFromGroups package_name none c.packages).2 = _
    rw [removeFromGroups_snd, Option.or_none]

/-- A configuration holding the name `x` in two groups under three types:
tap and Mac App Store app in `g1`, formula in `g2`. -/
def c8Config : BrewfileConfig :=
  { packages := [("g1", { taps := ["x"], mas := ["x"] }), ("g2", { brews := ["x"] })] }

/-- Witness for `remove_package_correct` on `c8Config`: after removal the
name is gone from every group, and the returned type is `BREW`, the last
removal in iteration order (`g1`/TAP, `g1`/MAS, then `g2`/BREW). -/
theorem remove_package_correct_witness :
    (∀ e ∈ (c8Config.remove_package "x").1.packages, ∀ t : PackageType,
        "x" ∉ e.2.get_packages_of_type t) ∧
    (c8Config.remove_package "x").2 =
      (c8Config.packages.flatMap fun e =>
        PackageType.all.filter fun t =>
          decide ("x" ∈ e.2.get_packages_of_type t)).getLast? := by
  exact remove_package_correct c8Config "x" (by decide)

/-- Elements whose image is empty can be dropped from a `flatMap`. -/
theorem flatMap_filter_of_nil {α β : Type} (p : α → Bool) (f : α → List β) :
    ∀ l : List α, (∀ a, p a = false → f a = []) → l.flatMap f = (l.filter p).flatMap f := by
  intro l h
  induction l with
  | nil => rfl
  | cons a rest ih =>
      by_cases hp : p a = true
      · rw [List.flatMap_cons, List.filter_cons_of_pos hp, List.flatMap_cons, ih]
      · have hp' : p a = false := by
          cases hpa : p a
          · rfl
          · exact absurd hpa hp
        rw [List.flatMap_cons, h a hp', List.filter_cons_of_neg (by simp [hp']),
          List.nil_append, ih]

/-- C10: `get_machine_packages` is total and tolerates configurations that
violate the group-reference invariant: an assigned group name absent from
the `packages` mapping is silently skipped — dropping all such names from
the assigned list does not change the result — and the entries of the
remaining valid groups are still returned, in order. -/
theorem get_machine_packages_skips_invalid (c : BrewfileConfig) (machine_name : String)
    (gs : List String) (h : c.machines.lookup machine_name = some gs) :
    c.get_machine_packages machine_name =
      (gs.filter fun g => (c.packages.lookup g).isSome).flatMap fun group_name =>
        match c.packages.lookup group_name with
        | none => []
        | some group =>
            PackageType.all.flatMap fun pkg_type =>
              (group.get_packages_of_type pkg_type).map fun pkg_name =>
                ({ name := pkg_name, group := some group_name, package_type := pkg_type } :
                  PackageInfo) := by
  unfold BrewfileConfig.get_machine_packages
  rw [h]
  apply flatMap_filter_of_nil
  intro g hg
  cases hlk : c.packages.lookup g with
  | none => rfl
  | some group => rw [hlk] at hg; cases hg

/-- A configuration whose machine `host1` references the group `ghost`,
which does not exist in the packages mapping. -/
def c10Config : BrewfileConfig :=
  { packages := [("g1", { brews := ["git"] }), ("g3", { casks := ["firefox"] })],
    machines := [("host1", ["g1", "ghost", "g3"])] }

/-- The per-type lists after `add_package`: the target type's list gains
the name at the end unless already present; the other lists are
unchanged. -/
theorem add_package_get (g : PackageGroup) (t : PackageType) (n : String) (u : PackageType) :
    (g.add_package t n).get_packages_of_type u =
      if u = t ∧ n ∉ g.get_packages_of_type t then g.get_packages_of_type u ++ [n]
      else g.get_packages_of_type u := by
  by_cases h : n ∈ g.get_packages_of_type t <;> cases t <;> cases u <;>
    simp_all [PackageGroup.add_package, PackageGroup.get_packages_of_type]

/-- The added name is a member afterwards. -/
theorem add_package_mem_self (g : PackageGroup) (t : PackageType) (n : String) :
    n ∈ (g.add_package t n).get_packages_of_type t := by
  rw [add_package_get]
  by_cases h : n ∈ g.get_packages_of_type t
  · rw [if_neg (by simp [h])]; exact h
  · rw [if_pos ⟨rfl, h⟩]; exact List.mem_append_right _ (List.mem_singleton.mpr rfl)

/-- `add_package` preserves existing memberships. -/
theorem add_package_mem_mono (g : PackageGroup) (t u : PackageType) (n x : String)
    (hx : x ∈ g.get_packages_of_type u) :
    x ∈ (g.add_package t n).get_packages_of_type u := by
  rw [add_package_get]
  split
  · exact List.mem_append_left _ hx
  · exact hx

/-- Folding adoptions over a group preserves existing memberships. -/
theorem fold_add_preserve :
    ∀ (l : List PackageInfo) (g : PackageGroup) (t : PackageType) (x : String),
      x ∈ g.get_packages_of_type t →
      x ∈ (l.foldl (fun g q => g.add_package q.package_type q.name) g).get_packages_of_type t := by
  intro l
  induction l with
  | nil => intro g t x hx; exact hx
  | cons q rest ih =>
      intro g t x hx
      rw [List.foldl_cons]
      exact ih _ t x (add_package_mem_mono g q.package_type t q.name x hx)

/-- After folding adoptions over a group, every adopted package's name is
in the per-type list of its type. -/
theorem fold_add_mem :
    ∀ (l : List PackageInfo) (g : PackageGroup) (p : PackageInfo), p ∈ l →
      p.name ∈
        (l.foldl (fun g q => g.add_package q.package_type q.name) g).get_packages_of_type
          p.package_type := by
  intro l
  induction l with
  | nil => intro g p hp; cases hp
  | cons q rest ih =>
      intro g p hp
      rw [List.foldl_cons]
      rcases List.mem_cons.mp hp with h | h
      · subst h
        exact fold_add_preserve rest _ _ _
          (add_package_mem_self g p.package_type p.name)
      · exact ih _ p h

/-- Looking up the updated key after a keyed map-update gives the updated
value. -/
theorem lookup_map_update_self (target : String) (f : PackageGroup → PackageGroup) :
    ∀ pkgs : List (String × PackageGroup),
      (pkgs.map fun entry =>
          if entry.1 = target then (entry.1, f entry.2) else entry).lookup target =
        (pkgs.lookup target).map f := by
  intro pkgs
  induction pkgs with
  | nil => rfl
  | cons e rest ih =>
      obtain ⟨k, v⟩ := e
      by_cases he : k = target
      · subst he
        rw [List.map_cons, if_pos rfl]
        simp [List.lookup_cons]
      · have hbeq : (target == k) = false := beq_eq_false_iff_ne.mpr (Ne.symm he)
        rw [List.map_cons, if_neg (by simpa using he)]
        simp only [List.lookup_cons, hbeq, ih]

/-- The adoption fold of `cmd_sync_adopt`, seen through `lookup`: the
target group accumulates every adoption, in order. -/
theorem adopt_fold_lookup (target : String) :
    ∀ (extra : List PackageInfo) (pkgs : List (String × PackageGroup)),
      (extra.foldl (fun pkgs pkg =>
          pkgs.map fun entry =>
            if entry.1 = target then (entry.1, entry.2.add_package pkg.package_type pkg.name)
            else entry) pkgs).lookup target =
        (pkgs.lookup target).map fun g =>
          extra.foldl (fun g pkg => g.add_package pkg.package_type pkg.name) g := by
  intro extra
  induction extra with
  | nil =>
      intro pkgs
      simp only [List.foldl_nil]
      cases pkgs.lookup target <;> rfl
  | cons p rest ih =>
      intro pkgs
      rw [List.foldl_cons, ih,
        lookup_map_update_self target (fun g => g.add_package p.package_type p.name) pkgs]
      cases pkgs.lookup target <;> rfl

/-- C9: in sync-adopt, when the hostname's assigned group list is empty the
extras are adopted into the fallback group `"adopted"` of the packages
mapping, but the machines mapping is left unchanged — so the adopted
packages still do not appear in the machine's configured package list. -/
theorem sync_adopt_fallback (c : BrewfileConfig) (hostname : String)
    (extra : List PackageInfo)
    (hhost : c.machines.lookup hostname = some []) (hne : extra ≠ []) :
    (adoptExtras c hostname extra).machines = c.machines ∧
    (∀ p ∈ extra,
      p.name ∈
        (((adoptExtras c hostname extra).packages.lookup "adopted").getD
            {}).get_packages_of_type p.package_type) ∧
    (adoptExtras c hostname extra).get_machine_packages hostname = [] := by
  have hempty : extra.isEmpty = false := by
    cases extra with
    | nil => exact absurd rfl hne
    | cons a l => rfl
  unfold adoptExtras
  rw [hempty]
  simp only [Bool.false_eq_true, if_false, hhost, Option.getD_some, List.headD_nil]
  by_cases hsome : (c.packages.lookup "adopted").isSome = true
  · obtain ⟨g0, hg0⟩ := Option.isSome_iff_exists.mp hsome
    rw [if_pos hsome]
    refine ⟨rfl, ?_, ?_⟩
    · intro p hp
      rw [adopt_fold_lookup, hg0]
      simp only [Option.map_some', Option.getD_some]
      exact fold_add_mem extra g0 p hp
    · unfold BrewfileConfig.get_machine_packages
      rw [hhost]
      rfl
  · rw [if_neg hsome]
    have hnone : c.packages.lookup "adopted" = none := by
      cases h : c.packages.lookup "adopted"
      · rfl
      · rw [h] at hsome; exact absurd rfl hsome
    refine ⟨rfl, ?_, ?_⟩
    · intro p hp
      rw [adopt_fold_lookup, List.lookup_append, hnone, Option.none_or]
      simp only [List.lookup_cons_self, Option.map_some', Option.getD_some]
      exact fold_add_mem extra {} p hp
    · unfold BrewfileConfig.get_machine_packages
      rw [hhost]
      rfl

/-- Witness for `get_machine_packages_skips_invalid` on `c10Config`: the
dangling group name `ghost` is skipped without error and the two valid
groups still contribute their entries. -/
theorem get_machine_packages_skips_invalid_witness :
    c10Config.get_machine_packages "host1" =
      ((["g1", "ghost", "g3"].filter fun g => (c10Config.packages.lookup g).isSome).flatMap
        fun group_name =>
          match c10Config.packages.lookup group_name with
          | none => []
          | some group =>
              PackageType.all.flatMap fun pkg_type =>
                (group.get_packages_of_type pkg_type).map fun pkg_name =>
                  ({ name := pkg_name, group := some group_name, package_type := pkg_type } :
                    PackageInfo)) :=
  get_machine_packages_skips_invalid c10Config "host1" ["g1", "ghost", "g3"] (by decide)

/-- Witness for `c2_amended` at the Slack pair: configured
`"Slack::803453959"`, installed `"Slack"`. -/
theorem c2_amended_witness :
    (slackSuffixedCfg ∈ (compare_packages [slackSuffixedCfg] [slackBareInst]).1 ↔
      slackSuffixedCfg ∈ [slackSuffixedCfg] ∧
        ¬ ∃ q ∈ [slackBareInst], q.package_type = .MAS ∧
            q.name = masDisplayName slackSuffixedCfg.name) ∧
    update_package_status [slackBareInst] [slackSuffixedCfg] =
      [{ slackSuffixedCfg with installed :=
          if ∃ q ∈ [slackBareInst], q.package_type = .MAS ∧
              q.name = masDisplayName slackSuffixedCfg.name then
            .INSTALLED
          else .NOT_INSTALLED }] ∧
    compare_packages [slackSuffixedCfg] [slackBareInst] = ([], []) ∧
    update_package_status [slackBareInst] [slackSuffixedCfg] =
      [{ slackSuffixedCfg with installed := .INSTALLED }] :=
  c2_amended [slackSuffixedCfg] [slackBareInst] slackSuffixedCfg (by decide) (by decide)

/-- A machine configured with an empty group list, for the sync-adopt
fallback scenario. -/
def c9Config : BrewfileConfig :=
  { packages := [("core", { brews := ["git"] })], machines := [("host1", [])] }

/-- Witness for `sync_adopt_fallback`: adopting the extra `htop` on a
machine with an empty group list puts it in the `"adopted"` group, leaves
the machines mapping unchanged, and the machine's configured package list
stays empty. -/
theorem sync_adopt_fallback_witness :
    (adoptExtras c9Config "host1" [htopPkg]).machines = c9Config.machines ∧
    (∀ p ∈ [htopPkg],
      p.name ∈
        (((adoptExtras c9Config "host1" [htopPkg]).packages.lookup "adopted").getD
            {}).get_packages_of_type p.package_type) ∧
    (adoptExtras c9Config "host1" [htopPkg]).get_machine_packages "host1" = [] :=
  sync_adopt_fallback c9Config "host1" [htopPkg] (by decide) (by decide)

/-- C6: single-package remove for a configured non-MAS package whose
backend removal call fails leaves the configuration untouched — the
package is still found in the configuration afterwards, and the failure is
reported as a warning. -/
theorem cmd_remove_backend_failure_keeps_config (config : BrewfileConfig)
    (package_name : String) (info : PackageInfo)
    (hfind : config.get_package_info package_name = some info)
    (hnotmas : info.package_type ≠ .MAS) :
    (cmd_remove config package_name false).config = config ∧
    (cmd_remove config package_name false).config.get_package_info package_name = some info ∧
    (cmd_remove config package_name false).warned_backend_failed = true := by
  unfold cmd_remove
  rw [hfind]
  simp [hnotmas, hfind]

/-- Witness for `cmd_remove_backend_failure_keeps_config`: removing `git`
from `c9Config` with a failing backend keeps the configuration as it was. -/
theorem cmd_remove_backend_failure_keeps_config_witness :
    (cmd_remove c9Config "git" false).config = c9Config ∧
    (cmd_remove c9Config "git" false).config.get_package_info "git" =
      some { name := "git", group := some "core", package_type := .BREW } ∧
    (cmd_remove c9Config "git" false).warned_backend_failed = true :=
  cmd_remove_backend_failure_keeps_config c9Config "git"
    { name := "git", group := some "core", package_type := .BREW } (by decide) (by decide)

/-- The configuration exhibiting the C3 divergence: a configured Mac App
Store package on a configured machine. -/
def c3Config : BrewfileConfig :=
  { packages := [("core", { mas := ["Slack::803453959"] })],
    machines := [("host1", ["core"])] }

/-- C3 evaluated at the failing input: for the configured MAS package the
source warns and never attempts a backend removal — as the claim states —
but then falls through to `config.remove_package`, so the package IS
removed from the configuration, contradicting the claim (and the source's
own comment "Remove from configuration only if system removal
succeeded"). -/
theorem cmd_remove_mas_removes_from_config :
    (cmd_remove c3Config "Slack::803453959" true).warned_mas_manual = true ∧
    (cmd_remove c3Config "Slack::803453959" true).backend_attempted = false ∧
    (cmd_remove c3Config "Slack::803453959" true).removed_from_config =
      some PackageType.MAS ∧
    (cmd_remove c3Config "Slack::803453959" true).config.packages.lookup "core" =
      some ({} : PackageGroup) ∧
    (cmd_remove c3Config "Slack::803453959" true).config.get_package_info
      "Slack::803453959" = none := by
  refine ⟨by decide, by decide, by decide, by decide, by decide⟩

/-- C4: reading the configured packages through the manager — the
`machine_packages` property, which runs `_ensure_configured` first — fails
explicitly (the `die` call, modelled as `Except.error`) for a hostname
absent from the machines mapping; no empty result is returned. -/
theorem machine_packages_unconfigured_fails (config : BrewfileConfig)
    (hostname : String) (installed : List PackageInfo)
    (h : config.machines.lookup hostname = none) :
    machine_packages config hostname installed =
      .error ("Machine " ++ hostname ++ " is not configured. Run brewfile init first.") := by
  unfold machine_packages
  rw [h]

/-- Witness for `machine_packages_unconfigured_fails`: `c9Config` knows
only `host1`, so reading packages for `laptop` dies. -/
theorem machine_packages_unconfigured_fails_witness :
    machine_packages c9Config "laptop" [htopPkg] =
      .error ("Machine " ++ "laptop" ++ " is not configured. Run brewfile init first.") :=
  machine_packages_unconfigured_fails c9Config "laptop" [htopPkg] (by decide)

/-- A decodable document whose `machines` field has the wrong shape (a
number instead of a mapping). -/
def c7BadDoc : Json := .obj [("machines", .num 42)]

/-- Counterexample to C7: not every structurally invalid document fails
with `ConfigParseError`. A document whose `machines` field is a number is
accepted silently (stored as-is, no validation), and a document whose top
level is an array raises an uncaught `AttributeError` (from `data.get`),
not the `ConfigParseError` `ValueError`. -/
theorem load_invalid_not_always_parse_error :
    load (.decoded c7BadDoc) =
      .ok { version := .str "1.0", packages := [], machines := .num 42 } ∧
    load (.decoded (.arr [])) = .error .attributeError := by
  exact ⟨rfl, rfl⟩

/-- C7 as amended: `load` returns the empty default configuration
(version `"1.0"`, no groups, no machines) whenever the path does not
exist, and fails with `ConfigParseError` when the document exists but is
not decodable; however, structurally invalid decodable documents are not
uniformly rejected: a non-object top level raises an uncaught
`AttributeError` instead, and wrong-shaped leaf fields (such as a
non-mapping `machines`) are accepted without any error. -/
theorem load_behaviour (j : Json) (hne : ∀ fields, j ≠ .obj fields) :
    load .missing = .ok { version := .str "1.0", packages := [], machines := .obj [] } ∧
    load .undecodable = .error .configParseError ∧
    load (.decoded j) = .error .attributeError ∧
    load (.decoded c7BadDoc) =
      .ok { version := .str "1.0", packages := [], machines := .num 42 } := by
    refine ⟨rfl, rfl, ?_, rfl⟩
    cases j with
    | null => rfl
    | bool b => rfl
    | num n => rfl
    | str s => rfl
    | arr elems => rfl
    | obj fields => exact absurd rfl (hne fields)

/-- Witness for `load_behaviour` at the array document `[]`. -/
theorem load_behaviour_witness :
    load .missing = .ok { version := .str "1.0", packages := [], machines := .obj [] } ∧
    load .undecodable = .error .configParseError ∧
    load (.decoded (.arr [])) = .error .attributeError ∧
    load (.decoded c7BadDoc) =
      .ok { version := .str "1.0", packages := [], machines := .num 42 } :=
  load_behaviour (.arr []) (fun _ h => Json.noConfusion h)
